import Mathlib

/-!
Verification of the todo-list undo/redo program (`src/todo.py`).

The program keeps a live task list (`User.tasks`), a linear history of
whole-list snapshots (`TaskCaretaker.history`) and an integer cursor
(`TaskCaretaker.index`, initially `-1`).  `save_to_history` prunes the
history to `history[:index+1]`, appends `[task.__dict__ for task in tasks]`
and increments the cursor; `undo`/`redo` move the cursor and rebuild the
live list with `Task(**d)` from the snapshot at the cursor.

Two embeddings are given.

* A value-level model (`SessionState` below): snapshots are the field
  values of the tasks.  Over the program's own operation set
  (add / remove-by-index / undo / redo) no task object is ever mutated in
  place after it enters the list, so the Python heap semantics and this
  value semantics coincide state by state.
* A heap-level model (namespace `HeapModel`): task attribute dicts and
  tags lists live at explicit addresses, exactly mirroring that
  `save_to_history` stores the `task.__dict__` references themselves.
  This model settles the aliasing/deep-copy claim.
-/

namespace Todo

/-- A task record: the three attributes set by `Task.__init__`. -/
structure Task where
  description : String
  due_date : Option String
  tags : List String
deriving DecidableEq, Repr

/-- The field map captured by `task.__dict__` and consumed by `Task(**d)`:
the same three fields, kept as a separate type to mirror the
snapshot-versus-object distinction of the source. -/
structure TaskDict where
  description : String
  due_date : Option String
  tags : List String
deriving DecidableEq, Repr

/-- `task.__dict__`: the attribute map of a task. -/
def Task.toDict (t : Task) : TaskDict :=
  ⟨t.description, t.due_date, t.tags⟩

/-- `Task(**d)`: rebuild a task from an attribute map
(`User.restore_from_memento`). -/
def Task.ofDict (d : TaskDict) : Task :=
  ⟨d.description, d.due_date, d.tags⟩

/-- `Task.__init__(description, due_date=None, tags=None)`: the source
constructor is total; a `None` tags argument becomes `[]`. -/
def Task.construct (description : String) (due_date : Option String)
    (tags : Option (List String)) : Task :=
  ⟨description, due_date, tags.getD []⟩

/-- Modelled from the spec: the spec's §4.1 `construct` for the Task
Record, which "fails with ValidationError if description is empty"
(a behaviour the spec itself marks as absent from the source, §9).
Present only to be compared with `Task.construct`. -/
def Task.constructChecked (description : String) (due_date : Option String)
    (tags : Option (List String)) : Except String Task :=
  if description = "" then Except.error "ValidationError"
  else Except.ok ⟨description, due_date, tags.getD []⟩

/-- Python list slicing `l[:i]` with a possibly negative bound. -/
def pyTake {α : Type} (l : List α) (i : Int) : List α :=
  if 0 ≤ i then l.take i.toNat else l.take (l.length + i).toNat

/-- The session state: `User.tasks`, `TaskCaretaker.history` and
`TaskCaretaker.index`. -/
structure SessionState where
  tasks : List Task
  history : List (List TaskDict)
  index : Int
deriving DecidableEq, Repr

/-- `User.__init__` / `TaskCaretaker.__init__`: empty list, empty history,
cursor `-1`. -/
def freshSession : SessionState := ⟨[], [], -1⟩

/-- `TaskCaretaker.save_to_history`: prune `history[:index+1]`, append the
snapshot of the current tasks, increment the cursor. -/
def save_to_history (s : SessionState) : SessionState :=
  { s with
    history := pyTake s.history (s.index + 1) ++ [s.tasks.map Task.toDict]
    index := s.index + 1 }

/-- `TaskCaretaker.undo`: if the cursor is positive, move it left and
install the snapshot now at the cursor (`restore_from_memento`). -/
def undo (s : SessionState) : SessionState :=
  if 0 < s.index then
    { s with
      index := s.index - 1
      tasks := (s.history.getD (s.index - 1).toNat []).map Task.ofDict }
  else s

/-- `TaskCaretaker.redo`: if the cursor is before the last stored
snapshot, move it right and install the snapshot now at the cursor. -/
def redo (s : SessionState) : SessionState :=
  if s.index < (s.history.length : Int) - 1 then
    { s with
      index := s.index + 1
      tasks := (s.history.getD (s.index + 1).toNat []).map Task.ofDict }
  else s

/-- `User.add_task`: append the task, then record a snapshot. -/
def add_task (s : SessionState) (t : Task) : SessionState :=
  save_to_history { s with tasks := s.tasks ++ [t] }

/-- The remove flow: the menu bounds-checks a 0-based index and calls
`User.remove_task(user.tasks[i])`, which removes that element (tasks in
the live list are distinct objects, so `list.remove` deletes exactly
index `i`) and records a snapshot; an out-of-range index changes
nothing. -/
def remove_task (s : SessionState) (i : Nat) : SessionState :=
  if i < s.tasks.length then
    save_to_history { s with tasks := s.tasks.eraseIdx i }
  else s

/-- The core operations a session accepts. -/
inductive Op where
  | add (t : Task)
  | remove (i : Nat)
  | undo
  | redo
deriving DecidableEq, Repr

/-- One operation applied to a session state. -/
def step (s : SessionState) : Op → SessionState
  | Op.add t => add_task s t
  | Op.remove i => remove_task s i
  | Op.undo => undo s
  | Op.redo => redo s

/-- Run a sequence of operations from the fresh session. -/
def run (ops : List Op) : SessionState :=
  ops.foldl step freshSession

/-! ### List helper lemmas -/

theorem listGetD_take {α : Type} (l : List α) (k n : Nat) (h : n < k) (d : α) :
    (l.take k).getD n d = l.getD n d := by
  induction l generalizing k n with
  | nil => simp
  | cons x xs ih =>
    cases k with
    | zero => omega
    | succ k =>
      cases n with
      | zero => simp
      | succ n =>
        simp only [List.take_succ_cons, List.getD_cons_succ]
        exact ih k n (by omega)

theorem listGetD_concat_self {α : Type} (l : List α) (x d : α) :
    (l ++ [x]).getD l.length d = x := by
  induction l with
  | nil => simp
  | cons y ys ih =>
    simp only [List.cons_append, List.length_cons, List.getD_cons_succ]
    exact ih

theorem listGetD_mem {α : Type} (l : List α) (n : Nat) (h : n < l.length) (d : α) :
    l.getD n d ∈ l := by
  rw [List.getD_eq_getElem l d h]
  exact List.getElem_mem h

theorem listHead?_take_append {α : Type} (x : α) (l l' : List α) (k : Nat) (hk : 1 ≤ k) :
    (((x :: l).take k) ++ l').head? = some x := by
  cases k with
  | zero => omega
  | succ k => simp

/-! ### The reachability invariant

`Inv` packages the cursor bounds of the spec's §3 together with the
history/live-list synchronisation property: the snapshot at the cursor
(when the cursor is non-negative) is exactly the field map of the live
task list. -/

def Inv (s : SessionState) : Prop :=
  -1 ≤ s.index ∧ s.index < (s.history.length : Int) ∧
    (0 ≤ s.index → s.history.getD s.index.toNat [] = s.tasks.map Task.toDict)

theorem inv_fresh : Inv freshSession := by
  refine ⟨by norm_num [freshSession], by norm_num [freshSession], ?_⟩
  intro h
  simp [freshSession] at h

theorem map_toDict_ofDict (l : List TaskDict) :
    (l.map Task.ofDict).map Task.toDict = l := by
  rw [List.map_map]
  have h : (Task.toDict ∘ Task.ofDict) = id := by
    funext d; rfl
  rw [h, List.map_id]

/-- `save_to_history` restores the full invariant from the cursor bounds
alone; the tasks of `s` are arbitrary. -/
theorem inv_save (s : SessionState) (h1 : -1 ≤ s.index)
    (h2 : s.index < (s.history.length : Int)) : Inv (save_to_history s) := by
  have hk : (s.index + 1).toNat ≤ s.history.length := by omega
  have htake : pyTake s.history (s.index + 1) = s.history.take (s.index + 1).toNat := by
    simp only [pyTake, if_pos (by omega : (0:Int) ≤ s.index + 1)]
  have hlen : (s.history.take (s.index + 1).toNat).length = (s.index + 1).toNat := by
    simp [List.length_take, Nat.min_eq_left hk]
  refine ⟨?_, ?_, ?_⟩
  · show -1 ≤ s.index + 1
    omega
  · show s.index + 1 <
      ((pyTake s.history (s.index + 1) ++ [s.tasks.map Task.toDict]).length : Int)
    rw [htake]
    simp only [List.length_append, hlen, List.length_cons, List.length_nil]
    omega
  · intro _
    show (pyTake s.history (s.index + 1) ++ [s.tasks.map Task.toDict]).getD
        (s.index + 1).toNat [] = s.tasks.map Task.toDict
    rw [htake]
    have hgoal := listGetD_concat_self (s.history.take (s.index + 1).toNat)
      (s.tasks.map Task.toDict) []
    rw [hlen] at hgoal
    exact hgoal

theorem inv_undo (s : SessionState) (h : Inv s) : Inv (undo s) := by
  obtain ⟨h1, h2, h3⟩ := h
  by_cases hc : 0 < s.index
  · have hu : undo s = { s with
        index := s.index - 1
        tasks := (s.history.getD (s.index - 1).toNat []).map Task.ofDict } := by
      simp [undo, hc]
    rw [hu]
    refine ⟨?_, ?_, ?_⟩
    · show -1 ≤ s.index - 1
      omega
    · show s.index - 1 < (s.history.length : Int)
      omega
    · intro _
      show s.history.getD (s.index - 1).toNat [] =
        ((s.history.getD (s.index - 1).toNat []).map Task.ofDict).map Task.toDict
      rw [map_toDict_ofDict]
  · have hu : undo s = s := by
      simp [undo, hc]
    rw [hu]
    exact ⟨h1, h2, h3⟩

theorem inv_redo (s : SessionState) (h : Inv s) : Inv (redo s) := by
  obtain ⟨h1, h2, h3⟩ := h
  by_cases hc : s.index < (s.history.length : Int) - 1
  · have hr : redo s = { s with
        index := s.index + 1
        tasks := (s.history.getD (s.index + 1).toNat []).map Task.ofDict } := by
      simp [redo, hc]
    rw [hr]
    refine ⟨?_, ?_, ?_⟩
    · show -1 ≤ s.index + 1
      omega
    · show s.index + 1 < (s.history.length : Int)
      omega
    · intro _
      show s.history.getD (s.index + 1).toNat [] =
        ((s.history.getD (s.index + 1).toNat []).map Task.ofDict).map Task.toDict
      rw [map_toDict_ofDict]
  · have hr : redo s = s := by
      simp [redo, hc]
    rw [hr]
    exact ⟨h1, h2, h3⟩

theorem inv_step (s : SessionState) (o : Op) (h : Inv s) : Inv (step s o) := by
  obtain ⟨h1, h2, h3⟩ := h
  cases o with
  | add t => exact inv_save _ (by simpa using h1) (by simpa using h2)
  | remove i =>
    by_cases hc : i < s.tasks.length
    · simp only [step, remove_task, if_pos hc]
      exact inv_save _ (by simpa using h1) (by simpa using h2)
    · simp only [step, remove_task, if_neg hc]
      exact ⟨h1, h2, h3⟩
  | undo => exact inv_undo s ⟨h1, h2, h3⟩
  | redo => exact inv_redo s ⟨h1, h2, h3⟩

theorem inv_run (ops : List Op) : Inv (run ops) := by
  suffices h : ∀ s, Inv s → Inv (ops.foldl step s) from h freshSession inv_fresh
  induction ops with
  | nil => intro s hs; exact hs
  | cons o rest ih =>
    intro s hs
    exact ih (step s o) (inv_step s o hs)

/-! ### Frame facts and the first-add invariant -/

theorem map_ofDict_toDict (l : List Task) :
    (l.map Task.toDict).map Task.ofDict = l := by
  rw [List.map_map]
  have h : (Task.ofDict ∘ Task.toDict) = id := by
    funext t; rfl
  rw [h, List.map_id]

theorem undo_keeps_history (s : SessionState) : (undo s).history = s.history := by
  unfold undo
  split <;> rfl

theorem redo_keeps_history (s : SessionState) : (redo s).history = s.history := by
  unfold redo
  split <;> rfl

theorem head?_getD_zero {α : Type} (l : List α) (x d : α) (h : l.head? = some x) :
    l.getD 0 d = x := by
  cases l with
  | nil => simp at h
  | cons y ys =>
    simp only [List.head?_cons, Option.some.injEq] at h
    simp [h]

/-- `save_to_history` keeps the oldest stored snapshot whenever the cursor
is already non-negative (the prune keeps positions `≤ index`). -/
theorem head?_save (s : SessionState) (h0 : 0 ≤ s.index)
    (h2 : s.index < (s.history.length : Int)) :
    (save_to_history s).history.head? = s.history.head? := by
  have htake : pyTake s.history (s.index + 1) = s.history.take (s.index + 1).toNat := by
    simp only [pyTake, if_pos (by omega : (0:Int) ≤ s.index + 1)]
  obtain ⟨x, rest, hh⟩ : ∃ x rest, s.history = x :: rest := by
    cases hcase : s.history with
    | nil => rw [hcase] at h2; simp at h2; omega
    | cons a b => exact ⟨a, b, rfl⟩
  show (pyTake s.history (s.index + 1) ++ [s.tasks.map Task.toDict]).head? = s.history.head?
  rw [htake, hh]
  rw [listHead?_take_append x rest _ _ (by omega : 1 ≤ (s.index + 1).toNat)]
  rfl

/-- Invariant of every state reached from the fresh session by a sequence
whose first operation is `add t`: the oldest snapshot is the one-task
state `[t]`, and the cursor never drops below 0 again. -/
def InvA (t : Task) (s : SessionState) : Prop :=
  Inv s ∧ 0 ≤ s.index ∧ s.history.head? = some [t.toDict]

theorem invA_step (t : Task) (s : SessionState) (o : Op) (h : InvA t s) :
    InvA t (step s o) := by
  obtain ⟨hInv, hge, hhd⟩ := h
  have h2 := hInv.2.1
  refine ⟨inv_step s o hInv, ?_, ?_⟩
  · cases o with
    | add t' =>
      show 0 ≤ s.index + 1
      omega
    | remove i =>
      by_cases hc : i < s.tasks.length
      · simp only [step, remove_task, if_pos hc]
        show 0 ≤ s.index + 1
        omega
      · simp only [step, remove_task, if_neg hc]
        exact hge
    | undo =>
      show 0 ≤ (undo s).index
      unfold undo
      split <;> [skip; exact hge]
      show 0 ≤ s.index - 1
      omega
    | redo =>
      show 0 ≤ (redo s).index
      unfold redo
      split <;> [skip; exact hge]
      show 0 ≤ s.index + 1
      omega
  · cases o with
    | add t' =>
      show (save_to_history { s with tasks := s.tasks ++ [t'] }).history.head? = _
      rw [head?_save { s with tasks := s.tasks ++ [t'] } hge h2]
      exact hhd
    | remove i =>
      by_cases hc : i < s.tasks.length
      · simp only [step, remove_task, if_pos hc]
        rw [head?_save { s with tasks := s.tasks.eraseIdx i } hge h2]
        exact hhd
      · simp only [step, remove_task, if_neg hc]
        exact hhd
    | undo =>
      show (undo s).history.head? = _
      rw [undo_keeps_history]
      exact hhd
    | redo =>
      show (redo s).history.head? = _
      rw [redo_keeps_history]
      exact hhd

theorem invA_run (t : Task) (ops : List Op) : InvA t (run (Op.add t :: ops)) := by
  have hbase : InvA t (step freshSession (Op.add t)) := by
    have hs : step freshSession (Op.add t) = ⟨[t], [[t.toDict]], 0⟩ := rfl
    rw [hs]
    refine ⟨⟨by norm_num, by norm_num, fun _ => rfl⟩, by norm_num, rfl⟩
  show InvA t ((Op.add t :: ops).foldl step freshSession)
  rw [List.foldl_cons]
  suffices h : ∀ s, InvA t s → InvA t (ops.foldl step s) from
    h (step freshSession (Op.add t)) hbase
  induction ops with
  | nil => intro s hs; exact hs
  | cons o rest ih =>
    intro s hs
    exact ih (step s o) (invA_step t s o hs)

/-- Iterating `undo` at least `index` many times lands the cursor on the
floor 0 and leaves the history untouched. -/
theorem undo_iter_floor : ∀ (n : Nat) (s : SessionState), Inv s → 0 ≤ s.index →
    s.index.toNat ≤ n →
    (undo^[n] s).index = 0 ∧ Inv (undo^[n] s) ∧ (undo^[n] s).history = s.history := by
  intro n
  induction n with
  | zero =>
    intro s hInv h0 hle
    rw [Function.iterate_zero_apply]
    exact ⟨by omega, hInv, rfl⟩
  | succ n ih =>
    intro s hInv h0 hle
    rw [Function.iterate_succ_apply]
    by_cases hc : 0 < s.index
    · have hidx : (undo s).index = s.index - 1 := by
        unfold undo
        rw [if_pos hc]
      obtain ⟨a, b, c⟩ := ih (undo s) (inv_undo s hInv)
        (by rw [hidx]; omega) (by rw [hidx]; omega)
      exact ⟨a, b, c.trans (undo_keeps_history s)⟩
    · have hu : undo s = s := by
        unfold undo
        rw [if_neg hc]
      rw [hu]
      exact ih s hInv h0 (by omega)

end Todo

namespace HeapModel

/-!
Heap-level embedding of the snapshot mechanism.  `save_to_history`
appends `[task.__dict__ for task in self.user.tasks]`: a fresh outer
list, but its entries are the live tasks' attribute dicts themselves,
not copies.  A task's `tags` attribute is likewise a reference to a
list object.  We model both pools of mutable objects as grow-only
arenas addressed by allocation order.
-/

/-- The attribute dict of one task object: `description` and `due_date`
(immutable strings) plus the address of its `tags` list object. -/
structure TaskObj where
  description : String
  due_date : Option String
  tagsRef : Nat
deriving DecidableEq, Repr

/-- The mutable store: task attribute dicts and tags-list objects, each
addressed by its position. -/
structure Heap where
  dicts : List TaskObj
  lists : List (List String)
deriving DecidableEq, Repr

/-- Session state at heap level: live tasks and stored snapshots hold
dict addresses (references), exactly as the Python objects do. -/
structure HState where
  heap : Heap
  tasks : List Nat
  history : List (List Nat)
  index : Int
deriving DecidableEq, Repr

/-- Dereference one task: the field values it currently denotes. -/
def readTask (h : Heap) (a : Nat) : Todo.TaskDict :=
  ⟨(h.dicts.getD a ⟨"", none, 0⟩).description,
   (h.dicts.getD a ⟨"", none, 0⟩).due_date,
   h.lists.getD (h.dicts.getD a ⟨"", none, 0⟩).tagsRef []⟩

/-- The contents a stored snapshot currently denotes. -/
def readSnap (h : Heap) (snap : List Nat) : List Todo.TaskDict :=
  snap.map (readTask h)

/-- `User.__init__`: empty heap, empty list, empty history, cursor -1. -/
def freshH : HState := ⟨⟨[], []⟩, [], [], -1⟩

/-- `TaskCaretaker.save_to_history` at heap level: the snapshot is a
fresh list whose entries are the live tasks' dict references. -/
def save_to_history (s : HState) : HState :=
  { s with
    history := Todo.pyTake s.history (s.index + 1) ++ [s.tasks]
    index := s.index + 1 }

/-- `User.add_task` for a task built by `TaskBuilder`: allocate the tags
list and the attribute dict, append the reference, record a snapshot. -/
def add_task (s : HState) (d : String) (dd : Option String) (tg : List String) : HState :=
  let tagsAddr := s.heap.lists.length
  let dictAddr := s.heap.dicts.length
  let heap' : Heap := ⟨s.heap.dicts ++ [⟨d, dd, tagsAddr⟩], s.heap.lists ++ [tg]⟩
  save_to_history { s with heap := heap', tasks := s.tasks ++ [dictAddr] }

/-- In-place mutation of the `i`-th live task's tags
(`task.tags.append(tag)`, as `TaskBuilder.add_tag` does): only the heap
cell changes; list structure, history and cursor are untouched. -/
def mutateTags (s : HState) (i : Nat) (tag : String) : HState :=
  let a := s.tasks.getD i 0
  let o := s.heap.dicts.getD a ⟨"", none, 0⟩
  { s with
    heap := { s.heap with
      lists := s.heap.lists.set o.tagsRef ((s.heap.lists.getD o.tagsRef []) ++ [tag]) } }

/-- Well-formed heap state: every stored or live reference is allocated. -/
def HWF (s : HState) : Prop :=
  (∀ snap ∈ s.history, ∀ a ∈ snap, a < s.heap.dicts.length) ∧
  (∀ a ∈ s.tasks, a < s.heap.dicts.length) ∧
  (∀ o ∈ s.heap.dicts, o.tagsRef < s.heap.lists.length)

/-- Reading a task is stable under heap growth. -/
theorem readTask_grow (h : Heap) (x : TaskObj) (tg : List String) (a : Nat)
    (ha : a < h.dicts.length)
    (hwf : ∀ o ∈ h.dicts, o.tagsRef < h.lists.length) :
    readTask ⟨h.dicts ++ [x], h.lists ++ [tg]⟩ a = readTask h a := by
  have hmem : h.dicts.getD a ⟨"", none, 0⟩ ∈ h.dicts :=
    Todo.listGetD_mem h.dicts a ha ⟨"", none, 0⟩
  simp only [readTask]
  rw [List.getD_append h.dicts [x] _ a ha,
    List.getD_append h.lists [tg] _ _ (hwf _ hmem)]

/-- Reading a snapshot is stable under heap growth. -/
theorem readSnap_grow (h : Heap) (x : TaskObj) (tg : List String) (snap : List Nat)
    (ha : ∀ a ∈ snap, a < h.dicts.length)
    (hwf : ∀ o ∈ h.dicts, o.tagsRef < h.lists.length) :
    readSnap ⟨h.dicts ++ [x], h.lists ++ [tg]⟩ snap = readSnap h snap := by
  unfold readSnap
  apply List.map_congr_left
  intro a hmem
  exact readTask_grow h x tg a (ha a hmem) hwf

/-- Adding a task preserves the denoted contents of every surviving
previously stored snapshot (positions the prune keeps). -/
theorem add_preserves_snapshots (s : HState) (d : String) (dd : Option String)
    (tg : List String) (hwf : HWF s) (h0 : -1 ≤ s.index) (j : Nat)
    (hj1 : (j : Int) < s.index + 1) (hj2 : j < s.history.length) :
    readSnap (add_task s d dd tg).heap ((add_task s d dd tg).history.getD j []) =
      readSnap s.heap (s.history.getD j []) := by
  obtain ⟨hwf1, _, hwf3⟩ := hwf
  have hadd : add_task s d dd tg =
      { heap := ⟨s.heap.dicts ++ [⟨d, dd, s.heap.lists.length⟩], s.heap.lists ++ [tg]⟩
        tasks := s.tasks ++ [s.heap.dicts.length]
        history := Todo.pyTake s.history (s.index + 1) ++ [s.tasks ++ [s.heap.dicts.length]]
        index := s.index + 1 } := rfl
  rw [hadd]
  have htake : Todo.pyTake s.history (s.index + 1) =
      s.history.take (s.index + 1).toNat := by
    simp only [Todo.pyTake, if_pos (by omega : (0:Int) ≤ s.index + 1)]
  have hjk : j < (s.index + 1).toNat := by omega
  have hjlen : j < (s.history.take (s.index + 1).toNat).length := by
    rw [List.length_take]
    omega
  show readSnap ⟨s.heap.dicts ++ [⟨d, dd, s.heap.lists.length⟩], s.heap.lists ++ [tg]⟩
      ((Todo.pyTake s.history (s.index + 1) ++ [s.tasks ++ [s.heap.dicts.length]]).getD j [])
      = readSnap s.heap (s.history.getD j [])
  rw [htake, List.getD_append _ _ _ _ hjlen, Todo.listGetD_take s.history _ j hjk]
  exact readSnap_grow s.heap _ tg _
    (hwf1 _ (Todo.listGetD_mem s.history j hj2 [])) hwf3

end HeapModel

/-! ## The claims -/

namespace Todo

/-- Claim C1: for every sequence of add/remove/undo/redo operations from a
fresh session, immediately after each operation, whenever the cursor is
non-negative the live task list equals (field by field) the snapshot
stored in history at the cursor. -/
theorem c1_live_sync (ops : List Op) (h : 0 ≤ (run ops).index) :
    (run ops).index.toNat < (run ops).history.length ∧
    (run ops).history.getD (run ops).index.toNat [] = (run ops).tasks.map Task.toDict := by
  obtain ⟨_, h2, h3⟩ := inv_run ops
  exact ⟨by omega, h3 h⟩

/-- Witness for C1: one `add` from the fresh session. -/
theorem c1_witness :
    0 ≤ (run [Op.add ⟨"a", none, []⟩]).index ∧
    ((run [Op.add ⟨"a", none, []⟩]).index.toNat <
        (run [Op.add ⟨"a", none, []⟩]).history.length ∧
      (run [Op.add ⟨"a", none, []⟩]).history.getD
          (run [Op.add ⟨"a", none, []⟩]).index.toNat [] =
        (run [Op.add ⟨"a", none, []⟩]).tasks.map Task.toDict) :=
  ⟨by decide, c1_live_sync [Op.add ⟨"a", none, []⟩] (by decide)⟩

/-- Claim C2: on every reachable state, `save_to_history` discards the
snapshots after the cursor, appends the snapshot of the current list and
moves the cursor to the new last index; consequently in the run
add(T1), add(T2), undo(), add(T3) a subsequent redo() is a no-op, and the
history holds only the states [T1] and [T1, T3] (T2's state is gone). -/
theorem c2_prune_append_redo_invalidation :
    (∀ ops : List Op,
      save_to_history (run ops) =
        { tasks := (run ops).tasks
          history := (run ops).history.take ((run ops).index + 1).toNat ++
            [(run ops).tasks.map Task.toDict]
          index := (run ops).index + 1 } ∧
      (save_to_history (run ops)).index =
        ((save_to_history (run ops)).history.length : Int) - 1) ∧
    (∀ t1 t2 t3 : Task,
      redo (run [Op.add t1, Op.add t2, Op.undo, Op.add t3]) =
        run [Op.add t1, Op.add t2, Op.undo, Op.add t3] ∧
      (run [Op.add t1, Op.add t2, Op.undo, Op.add t3]).history =
        [[t1.toDict], [t1.toDict, t3.toDict]]) := by
  constructor
  · intro ops
    obtain ⟨h1, h2, _⟩ := inv_run ops
    have htake : pyTake (run ops).history ((run ops).index + 1) =
        (run ops).history.take ((run ops).index + 1).toNat := by
      simp only [pyTake, if_pos (by omega : (0:Int) ≤ (run ops).index + 1)]
    constructor
    · show ({ (run ops) with
        history := pyTake (run ops).history ((run ops).index + 1) ++
          [(run ops).tasks.map Task.toDict]
        index := (run ops).index + 1 } : SessionState) = _
      rw [htake]
    · show (run ops).index + 1 =
        ((pyTake (run ops).history ((run ops).index + 1) ++
          [(run ops).tasks.map Task.toDict]).length : Int) - 1
      rw [htake]
      simp only [List.length_append, List.length_take, List.length_cons, List.length_nil]
      omega
  · intro t1 t2 t3
    exact ⟨rfl, rfl⟩

/-- Claim C4: add(T1), add(T2), undo(), redo() yields the same live list
as add(T1), add(T2) alone, for every pair of tasks. -/
theorem c4_undo_redo_roundtrip (t1 t2 : Task) :
    (run [Op.add t1, Op.add t2, Op.undo, Op.redo]).tasks =
      (run [Op.add t1, Op.add t2]).tasks := rfl

/-- Claim C5: the cursor satisfies -1 ≤ index ≤ length(history) - 1 in the
fresh state and after every operation, and `save_to_history` always
leaves the cursor at the last valid index. -/
theorem c5_cursor_bounds (ops : List Op) :
    -1 ≤ (run ops).index ∧ (run ops).index ≤ ((run ops).history.length : Int) - 1 ∧
    (save_to_history (run ops)).index =
      ((save_to_history (run ops)).history.length : Int) - 1 := by
  obtain ⟨h1, h2, _⟩ := inv_run ops
  refine ⟨h1, by omega, ?_⟩
  have htake : pyTake (run ops).history ((run ops).index + 1) =
      (run ops).history.take ((run ops).index + 1).toNat := by
    simp only [pyTake, if_pos (by omega : (0:Int) ≤ (run ops).index + 1)]
  show (run ops).index + 1 =
    ((pyTake (run ops).history ((run ops).index + 1) ++
      [(run ops).tasks.map Task.toDict]).length : Int) - 1
  rw [htake]
  simp only [List.length_append, List.length_take, List.length_cons, List.length_nil]
  omega

/-- Claim C6: in any state, undo() with the cursor at -1 or 0 changes
nothing, and redo() with the cursor at the last valid history index
changes nothing (so in particular the live task list is unchanged). -/
theorem c6_noop_boundaries (s : SessionState) :
    ((s.index = -1 ∨ s.index = 0) → undo s = s) ∧
    (s.index = (s.history.length : Int) - 1 → redo s = s) := by
  constructor
  · intro h
    unfold undo
    rw [if_neg (by rcases h with h | h <;> omega)]
  · intro h
    unfold redo
    rw [if_neg (by omega)]

/-- Witness for C6: the fresh session (cursor -1, empty history). -/
theorem c6_witness : undo freshSession = freshSession ∧ redo freshSession = freshSession :=
  ⟨(c6_noop_boundaries freshSession).1 (Or.inl rfl),
   (c6_noop_boundaries freshSession).2 (by decide)⟩

end Todo

namespace Todo

/-- The "Buy milk" task of the spec's concrete scenario. -/
def buyMilk : Task := ⟨"Buy milk", none, ["errand"]⟩

/-- The "Call Bob" task of the spec's concrete scenario. -/
def callBob : Task := ⟨"Call Bob", none, []⟩

/-- The mutation prefix of the spec's concrete scenario. -/
def scenarioOps : List Op := [Op.add buyMilk, Op.add callBob, Op.remove 0]

/-- Counterexample to C7: in the spec's concrete scenario the third undo()
does not yield the empty list; it is a no-op that leaves the list at the
first post-mutation snapshot [{"Buy milk", ...}]. -/
theorem c7_counterexample :
    (run (scenarioOps ++ [Op.undo, Op.undo, Op.undo])).tasks = [buyMilk] ∧
    (run (scenarioOps ++ [Op.undo, Op.undo, Op.undo])).tasks ≠ ([] : List Task) := by
  decide

/-- Claim C7 as amended: the scenario runs as the spec says up to the
second undo(); the third undo() is a no-op (cursor already at floor 0)
and leaves the list [{"Buy milk", ...}], not []. -/
theorem c7_amended_scenario :
    (run scenarioOps).tasks = [callBob] ∧
    (run (scenarioOps ++ [Op.undo])).tasks = [buyMilk, callBob] ∧
    (run (scenarioOps ++ [Op.undo, Op.undo])).tasks = [buyMilk] ∧
    (run (scenarioOps ++ [Op.undo, Op.undo])).index = 0 ∧
    run (scenarioOps ++ [Op.undo, Op.undo, Op.undo]) =
      run (scenarioOps ++ [Op.undo, Op.undo]) := by
  decide

/-- Counterexample to C8: `Task.__init__` performs no validation, so
construction with an empty description succeeds (the source never raises
ValidationError), diverging from the spec-modelled checked constructor. -/
theorem c8_counterexample :
    Task.construct "" none none = { description := "", due_date := none, tags := [] } ∧
    Task.constructChecked "" none none = Except.error "ValidationError" ∧
    Except.ok (Task.construct "" none none) ≠ Task.constructChecked "" none none := by
  refine ⟨rfl, rfl, ?_⟩
  intro h
  have h' : (Except.ok (Task.construct "" none none) : Except String Task) =
      Except.error "ValidationError" := h
  exact Except.noConfusion h'

/-- Claim C8 as amended: construction never fails; every description
(empty included) is accepted, with the due date stored as given and a
missing tags argument defaulting to the empty list. -/
theorem c8_amended_construct_total (d : String) (dd : Option String)
    (tg : Option (List String)) :
    Task.construct d dd tg = { description := d, due_date := dd, tags := tg.getD [] } := rfl

/-- Claim C9: the fresh session records no snapshot (empty history,
cursor -1); for every run whose first operation is an add, the oldest
stored snapshot is the one-task state of that first add, and repeated
undo() floors at cursor 0 with exactly that one-task list live — the
pre-mutation empty list is never restored by undo. -/
theorem c9_undo_floor_after_first_add (t : Task) (ops : List Op) (n : Nat)
    (hn : (run (Op.add t :: ops)).index.toNat ≤ n) :
    freshSession.history = [] ∧ freshSession.index = -1 ∧
    (run (Op.add t :: ops)).history.head? = some [t.toDict] ∧
    (undo^[n] (run (Op.add t :: ops))).index = 0 ∧
    (undo^[n] (run (Op.add t :: ops))).tasks = [t] := by
  obtain ⟨hInv, hge, hhd⟩ := invA_run t ops
  obtain ⟨hidx0, hInv', hhist⟩ := undo_iter_floor n (run (Op.add t :: ops)) hInv hge hn
  refine ⟨rfl, rfl, hhd, hidx0, ?_⟩
  obtain ⟨_, _, hsync⟩ := hInv'
  have hs := hsync (by omega)
  simp only [hidx0, Int.toNat_zero, hhist] at hs
  have hget0 : (run (Op.add t :: ops)).history.getD 0 [] = [t.toDict] :=
    head?_getD_zero _ _ [] hhd
  rw [hget0] at hs
  calc (undo^[n] (run (Op.add t :: ops))).tasks
      = (((undo^[n] (run (Op.add t :: ops))).tasks.map Task.toDict).map Task.ofDict) :=
        (map_ofDict_toDict _).symm
    _ = ([t.toDict].map Task.ofDict) := by rw [← hs]
    _ = [t] := rfl

/-- Witness for C9: one add of a concrete task, then one undo. -/
theorem c9_witness :
    (run [Op.add ⟨"a", none, []⟩]).index.toNat ≤ 1 ∧
    (freshSession.history = [] ∧ freshSession.index = -1 ∧
      (run [Op.add ⟨"a", none, []⟩]).history.head? = some [Task.toDict ⟨"a", none, []⟩] ∧
      (undo^[1] (run [Op.add ⟨"a", none, []⟩])).index = 0 ∧
      (undo^[1] (run [Op.add ⟨"a", none, []⟩])).tasks = [⟨"a", none, []⟩]) :=
  ⟨by decide, c9_undo_floor_after_first_add ⟨"a", none, []⟩ [] 1 (by decide)⟩

/-- Claim C10: undo() and redo() never modify the stored history
sequence, in any state. -/
theorem c10_undo_redo_frame (s : SessionState) :
    (undo s).history = s.history ∧ (redo s).history = s.history :=
  ⟨undo_keeps_history s, redo_keeps_history s⟩

end Todo

namespace HeapModel

/-- Counterexample to C3: the stored snapshot is not a deep copy.
`save_to_history` stores the `task.__dict__` references, so after
add({"Buy milk", tags ["errand"]}) the snapshot shares the task's
attribute dict with the live list; appending the tag "x" to the live
task's tags in place changes what the stored snapshot denotes, even
though the history structure itself is untouched. -/
theorem c3_counterexample :
    (mutateTags (add_task freshH "Buy milk" none ["errand"]) 0 "x").history =
      (add_task freshH "Buy milk" none ["errand"]).history ∧
    readSnap (add_task freshH "Buy milk" none ["errand"]).heap
        ((add_task freshH "Buy milk" none ["errand"]).history.getD 0 []) =
      [⟨"Buy milk", none, ["errand"]⟩] ∧
    readSnap (mutateTags (add_task freshH "Buy milk" none ["errand"]) 0 "x").heap
        ((mutateTags (add_task freshH "Buy milk" none ["errand"]) 0 "x").history.getD 0 []) =
      [⟨"Buy milk", none, ["errand", "x"]⟩] ∧
    readSnap (mutateTags (add_task freshH "Buy milk" none ["errand"]) 0 "x").heap
        ((mutateTags (add_task freshH "Buy milk" none ["errand"]) 0 "x").history.getD 0 []) ≠
      readSnap (add_task freshH "Buy milk" none ["errand"]).heap
        ((add_task freshH "Buy milk" none ["errand"]).history.getD 0 []) := by
  decide

/-- Claim C3 as amended: appending a task through the add operation
leaves the denoted contents of every surviving previously stored
snapshot unchanged; snapshots are however not deep copies — they alias
the live tasks' attribute dicts and tags lists, so only the operations
of the program (which never mutate a task in place) preserve them. -/
theorem c3_amended_append_isolation (s : HState) (d : String) (dd : Option String)
    (tg : List String) (hwf : HWF s) (h0 : -1 ≤ s.index) (j : Nat)
    (hj1 : (j : Int) < s.index + 1) (hj2 : j < s.history.length) :
    readSnap (add_task s d dd tg).heap ((add_task s d dd tg).history.getD j []) =
      readSnap s.heap (s.history.getD j []) :=
  add_preserves_snapshots s d dd tg hwf h0 j hj1 hj2

/-- A concrete one-task heap state for the C3 witness. -/
def exampleState : HState := add_task freshH "a" none ["x"]

/-- Witness for the amended C3: adding "b" after "a" leaves the first
stored snapshot's contents unchanged. -/
theorem c3_witness :
    HWF exampleState ∧ -1 ≤ exampleState.index ∧
    ((0 : Nat) : Int) < exampleState.index + 1 ∧ 0 < exampleState.history.length ∧
    readSnap (add_task exampleState "b" none []).heap
        ((add_task exampleState "b" none []).history.getD 0 []) =
      readSnap exampleState.heap (exampleState.history.getD 0 []) :=
  ⟨by unfold HWF; decide, by decide, by decide, by decide,
   c3_amended_append_isolation exampleState "b" none [] (by unfold HWF; decide) (by decide) 0
     (by decide) (by decide)⟩

end HeapModel
